import Mathlib

/-! Verification of the resource-name derivation and configuration-validation
logic of the dify-self-hosted-on-aws CDK stack.

Strings are modelled as `List Char`; every JavaScript string operation used by
the source (toLowerCase, the three regex replace passes, slice, padEnd, join,
`||` on strings) acts per character and is embedded as an explicit function on
`List Char`.  The stack constructor's validation (a sequence of `if ... throw`
checks followed by an optional warning) is embedded as a function returning
`Except errorMessage warningList`, where a thrown error aborts the pass. -/

namespace DifyOnAws

/-- Lower-case ASCII letters `a`-`z` (code points 97-122). -/
def isLowerAlpha (c : Char) : Bool := decide (97 ≤ c.toNat) && decide (c.toNat ≤ 122)

/-- ASCII digits `0`-`9` (code points 48-57). -/
def isDigitChar (c : Char) : Bool := decide (48 ≤ c.toNat) && decide (c.toNat ≤ 57)

/-- The character class `[a-z0-9]`. -/
def isLowerAlnum (c : Char) : Bool := isLowerAlpha c || isDigitChar c

/-- The character class `[a-z0-9-]` kept by the sanitizer's replace pass. -/
def allowedChar (c : Char) : Bool := isLowerAlnum c || decide (c = '-')

/-- One character of the `.replace(/[^a-z0-9-]/g, '-')` pass. -/
def replaceChar (c : Char) : Char := if allowedChar c then c else '-'

/-- The second replace pass (regex: one-or-more hyphens, global, replaced by a
single hyphen): collapse each run of hyphens to a single hyphen.  `prevDash` records whether the character just consumed was part of a
hyphen run that already emitted its single `-`. -/
def collapseAux : Bool → List Char → List Char
  | _, [] => []
  | prevDash, c :: rest =>
    if c = '-' then
      if prevDash then collapseAux true rest else '-' :: collapseAux true rest
    else c :: collapseAux false rest

/-- Whether a string starts with `-`. -/
def headIsDash : List Char → Bool
  | [] => false
  | c :: _ => decide (c = '-')

/-- Whether a string ends with `-`. -/
def lastIsDash : List Char → Bool
  | [] => false
  | [c] => decide (c = '-')
  | _ :: c :: rest => lastIsDash (c :: rest)

/-- The `^-` alternative of the `.replace(/^-|-$/g, '')` pass: drop a single
leading hyphen. -/
def dropLeadDash (s : List Char) : List Char := if headIsDash s then s.tail else s

/-- The `-$` alternative of the `.replace(/^-|-$/g, '')` pass: drop a single
trailing hyphen. -/
def dropTrailDash : List Char → List Char
  | [] => []
  | [c] => if c = '-' then [] else [c]
  | c :: d :: rest => c :: dropTrailDash (d :: rest)

/-- `sanitize` from the stack (src/unnamed/part_000 lines 43-48): lowercase,
replace every character outside `[a-z0-9-]` with `-`, collapse runs of `-`,
then strip one leading and one trailing `-`.  Total: no input raises. -/
def sanitize (s : List Char) : List Char :=
  dropTrailDash (dropLeadDash (collapseAux false ((s.map Char.toLower).map replaceChar)))

/-- Acceptor for the regular expression `^[a-z0-9]+(-[a-z0-9]+)*$`, run as a
state machine: `needAlnum` is true at the start of the input and right after a
hyphen, where only `[a-z0-9]` may follow and the input must not end. -/
def tokenRun : Bool → List Char → Bool
  | needAlnum, [] => !needAlnum
  | needAlnum, c :: rest =>
    if isLowerAlnum c then tokenRun false rest
    else if c = '-' then !needAlnum && tokenRun true rest
    else false

/-- Whether a string matches `^[a-z0-9]+(-[a-z0-9]+)*$`. -/
def matchesToken (s : List Char) : Bool := tokenRun true s

/-- No two adjacent hyphens anywhere in the string. -/
def noDoubleDash : List Char → Bool
  | [] => true
  | [_] => true
  | c :: d :: rest => !(decide (c = '-') && decide (d = '-')) && noDoubleDash (d :: rest)

/-- The replace pass whose regex is an anchored trailing hyphen run (one or
more hyphens then end of string, replaced by nothing): remove the whole
trailing run of hyphens. -/
def stripTrailDashes : List Char → List Char
  | [] => []
  | c :: rest =>
    match stripTrailDashes rest with
    | [] => if c = '-' then [] else [c]
    | t => c :: t

/-- JavaScript `||` specialised to strings: the empty string is falsy. -/
def jsOr (a b : List Char) : List Char := if a = [] then b else a

/-- JavaScript `Array.prototype.join('-')` on an array of strings. -/
def joinDash : List (List Char) → List Char
  | [] => []
  | [x] => x
  | x :: xs => x ++ '-' :: joinDash xs

/-- `environmentName` (part_000 line 50): `sanitize(environmentNameInput) || 'env'`. -/
def environmentName (input : List Char) : List Char := jsOr (sanitize input) ("env".data)

/-- `resourceNamePrefix` (part_000 line 51), the prefix every derived resource
name starts from: `sanitize('dify-' + environmentName) || 'dify'`. -/
def resourceNamePfx (input : List Char) : List Char :=
  jsOr (sanitize (("dify-".data) ++ environmentName input)) ("dify".data)

/-- `buildName` (part_000 lines 53-58).  The source closes over
`resourceNamePrefix`; here the environment-name input it derives from is an
explicit first argument. -/
def buildName (input suffix : List Char) (maxLength : Nat) : List Char :=
  let p := resourceNamePfx input
  let sanitizedSuffix := sanitize suffix
  let combined :=
    sanitize (joinDash (([p, sanitizedSuffix]).filter (fun part => decide (0 < part.length))))
  let truncated := stripTrailDashes (combined.take maxLength)
  (jsOr (jsOr truncated combined) p).take maxLength

/-- `accountSegment` (part_000 line 60): `undefined` when the account is an
unresolved token (modelled as `none`), else the sanitized account string. -/
def accountSegment (account : Option (List Char)) : Option (List Char) := account.map sanitize

/-- `regionSegment` (part_000 line 61). -/
def regionSegment (region : Option (List Char)) : Option (List Char) := region.map sanitize

/-- `bucketPrefix` (part_000 lines 62-64): prefix, account and region segments,
kept when present and non-empty, joined with `-` and sanitized. -/
def bucketPfx (input : List Char) (account region : Option (List Char)) : List Char :=
  sanitize (joinDash ((([some (resourceNamePfx input), accountSegment account,
    regionSegment region]).filterMap id).filter (fun part => decide (0 < part.length))))

/-- JavaScript `.padEnd(3, '0')`: pad on the right with `'0'` up to length 3. -/
def padEndZero3 (s : List Char) : List Char := s ++ List.replicate (3 - s.length) '0'

/-- `buildBucketName` (part_000 lines 66-74). -/
def buildBucketName (input : List Char) (account region : Option (List Char))
    (suffix : List Char) : List Char :=
  let base := jsOr (bucketPfx input account region) (resourceNamePfx input)
  let candidate := stripTrailDashes
    ((sanitize (joinDash (([base, suffix]).filter (fun part => decide (0 < part.length))))).take 63)
  if candidate.length < 3 then (padEndZero3 (resourceNamePfx input)).take 63 else candidate

/-- The intermediate `candidate` of `buildBucketName` after truncation to 63
and the trailing-hyphen strip (part_000 lines 68-69), before the length-3
fallback test. -/
def bucketCandidate (input : List Char) (account region : Option (List Char))
    (suffix : List Char) : List Char :=
  stripTrailDashes ((sanitize (joinDash (([jsOr (bucketPfx input account region)
    (resourceNamePfx input), suffix]).filter (fun part => decide (0 < part.length))))).take 63)

/-- `taskFamily` (web.ts line 34): backtick-template append of `-web`, sliced
to 255 characters with no trailing-hyphen strip. -/
def taskFamily (rnp : List Char) : List Char := (rnp ++ ("-web".data)).take 255

/-- `serviceName` (web.ts line 35): same expression as the task family. -/
def serviceName (rnp : List Char) : List Char := (rnp ++ ("-web".data)).take 255

/-- `subnetGroupName` (redis construct line 144): append `-redis-subnets`,
slice to 255, strip the trailing hyphen run. -/
def subnetGroupName (rnp : List Char) : List Char :=
  stripTrailDashes ((rnp ++ ("-redis-subnets".data)).take 255)

/-- `replicationGroupId` (redis construct line 145): append `-redis`, slice to
40, strip the trailing hyphen run. -/
def replicationGroupId (rnp : List Char) : List Char :=
  stripTrailDashes ((rnp ++ ("-redis".data)).take 40)

/-- `clusterName` (part_000 line 136): `buildName('cluster', 255)`. -/
def clusterName (input : List Char) : List Char := buildName input ("cluster".data) 255

/-- The value of one additional environment variable: either a plain string or
a Secrets Manager reference carrying a secret name (the validation only
distinguishes plain strings from objects with a `secretName` field). -/
inductive EnvValue where
  | plain (value : List Char)
  | secretRef (secretName : List Char)
deriving DecidableEq

/-- One entry of `additionalEnvironmentVariables`; validation reads only its
`value` field. -/
structure EnvVar where
  value : EnvValue
deriving DecidableEq

/-- The line terminators that the JavaScript regex metacharacter dot does not
match: LF, CR, U+2028 and U+2029. -/
def isLineTerm (c : Char) : Bool :=
  decide (c = '\n') || decide (c = '\r') || decide (c = '\u2028') || decide (c = '\u2029')

/-- The test of the anchored regex: a hyphen followed by six dot
metacharacters then end of input (part_000 line 98).  The match must cover the
last seven characters; each of the six dots matches any character that is not
a line terminator. -/
def testDashSix (s : List Char) : Bool :=
  decide (7 ≤ s.length) && ((s.reverse.take 6).all (fun c => ! isLineTerm c))
    && decide (s.reverse.get? 6 = some '-')

/-- The plain reading of the phrase "identifier ending in a hyphen followed by
exactly six characters", with no constraint on which six characters. -/
def endsInHyphenSix (s : List Char) : Bool :=
  decide (7 ≤ s.length) && decide (s.reverse.get? 6 = some '-')

/-- The subset of `DifyOnAwsStackProps` the constructor's validation reads.
`none` is an omitted (undefined) property. -/
structure StackProps where
  vpcId : Option (List Char) := none
  useNatInstance : Option Bool := none
  vpcIsolated : Option Bool := none
  useCloudFront : Option Bool := none
  internalAlb : Option Bool := none
  domainName : Option (List Char) := none
  subDomain : Option (List Char) := none
  setupEmail : Option Bool := none
  additionalEnvironmentVariables : Option (List EnvVar) := none
deriving DecidableEq

/-- JavaScript truthiness of an optional string: present and non-empty. -/
def jsTruthyStr : Option (List Char) → Bool
  | some s => decide (s ≠ [])
  | none => false

/-- JavaScript truthiness of an optional boolean: present and true. -/
def jsTruthyBool : Option Bool → Bool
  | some b => b
  | none => false

/-- Condition of the first check (part_000 line 76): a truthy `vpcId` together
with `vpcIsolated != null || useNatInstance != null`. -/
def vpcCond (p : StackProps) : Bool :=
  jsTruthyStr p.vpcId && (p.vpcIsolated.isSome || p.useNatInstance.isSome)

/-- Condition of the second check (line 82): the destructured `useCloudFront`
(defaulted to true) together with `internalAlb != null`. -/
def cfAlbCond (p : StackProps) : Bool := p.useCloudFront.getD true && p.internalAlb.isSome

/-- Condition of the third check (line 86): `domainName == null` and
`subDomain != null`. -/
def subDomainCond (p : StackProps) : Bool := p.domainName.isNone && p.subDomain.isSome

/-- Condition of the fourth check (line 90): truthy `setupEmail` and
`domainName == null`. -/
def emailCond (p : StackProps) : Bool := jsTruthyBool p.setupEmail && p.domainName.isNone

/-- The secret names among the additional environment variable values
(part_000 lines 95-99, before the regex filter). -/
def secretNamesOf (l : List EnvVar) : List (List Char) :=
  (l.map (fun v => v.value)).filterMap (fun v =>
    match v with
    | EnvValue.secretRef n => some n
    | EnvValue.plain _ => none)

/-- The offending secret names collected by the fifth check: those matching
the hyphen-plus-six-dots regex. -/
def offendingSecretNames (vars : Option (List EnvVar)) : List (List Char) :=
  (secretNamesOf (vars.getD [])).filter testDashSix

/-- Condition of the warning (line 106): raw `useCloudFront` falsy, no
`domainName`, and the destructured `internalAlb` (defaulted to false) false. -/
def warnCond (p : StackProps) : Bool :=
  !jsTruthyBool p.useCloudFront && p.domainName.isNone && !(p.internalAlb.getD false)

/-- JavaScript `Array.prototype.join(', ')` on an array of strings. -/
def joinCommaSpace : List (List Char) → List Char
  | [] => []
  | [x] => x
  | x :: xs => x ++ (", ".data) ++ joinCommaSpace xs

/-- The message of the first check (line 78), interpolating the VPC id. -/
def vpcConflictMsg (v : List Char) : List Char :=
  ("When you import an existing VPC (".data) ++ v ++
    ("), you cannot set useNatInstance or vpcIsolated properties!".data)

/-- The message of the second check (line 83). -/
def cfAlbMsg : List Char :=
  ("You cannot set internalAlb property when useCloudFront is true!".data)

/-- The message of the third check (line 87). -/
def subDomainMsg : List Char :=
  ("You cannot set subDomain property without domainName!".data)

/-- The message of the fourth check (line 91). -/
def emailMsg : List Char :=
  ("You cannot enable setupEmailServer without domainName!".data)

/-- The message of the fifth check (line 102), enumerating all offenders. -/
def secretNameMsg (offenders : List (List Char)) : List Char :=
  ("secretName cannot ends with a hyphen and 6 characters! ".data) ++
    joinCommaSpace offenders

/-- The advisory warning text (lines 107-110). -/
def albWarnMsg : List Char :=
  ("You are exposing ALB to the Internet without TLS encryption. It is recommended to set useCloudFront: true or domainName property.".data)

/-- The validation part of the stack constructor (part_000 lines 76-111): the
five `if ... throw` checks in source order, then the advisory warning.  A
thrown error aborts the pass (`Except.error` with the message); otherwise the
pass completes with the list of warnings added. -/
def validate (p : StackProps) : Except (List Char) (List (List Char)) :=
  if vpcCond p then Except.error (vpcConflictMsg (p.vpcId.getD []))
  else if cfAlbCond p then Except.error cfAlbMsg
  else if subDomainCond p then Except.error subDomainMsg
  else if emailCond p then Except.error emailMsg
  else if !(offendingSecretNames p.additionalEnvironmentVariables).isEmpty then
    Except.error (secretNameMsg (offendingSecretNames p.additionalEnvironmentVariables))
  else if warnCond p then Except.ok [albWarnMsg]
  else Except.ok []

/-- A 249-character environment label (all letter a). -/
def longEnvLabel : List Char := List.replicate 249 'a'

/-- Example props: an imported VPC together with `useNatInstance` explicitly
set to false (NAT-instance creation not requested). -/
def c5props : StackProps := { vpcId := some ("vpc-123".data), useNatInstance := some false }

/-- Example props: CloudFront enabled, `internalAlb` explicitly set to true. -/
def c6props : StackProps := { useCloudFront := some true, internalAlb := some true }

/-- Example props: CloudFront enabled, `internalAlb` explicitly false. -/
def c6propsFalse : StackProps := { useCloudFront := some true, internalAlb := some false }

/-- Example props: one additional secret whose name ends in a hyphen and six
characters, one of which is a newline. -/
def c7props : StackProps :=
  { useCloudFront := some true,
    additionalEnvironmentVariables := some [⟨EnvValue.secretRef ("x-ab\ncde".data)⟩] }

/-- Example props: one additional secret named mysecret-ab12cd. -/
def c7propsPlain : StackProps :=
  { useCloudFront := some true,
    additionalEnvironmentVariables := some [⟨EnvValue.secretRef ("mysecret-ab12cd".data)⟩] }

/-- Example props: CloudFront off, public load balancer, no domain. -/
def c8props : StackProps := { useCloudFront := some false, internalAlb := some false }

/-- Example props violating both the sub-domain rule and the secret-name
rule at once. -/
def c9props : StackProps :=
  { subDomain := some ("app".data),
    additionalEnvironmentVariables := some [⟨EnvValue.secretRef ("mysecret-ab12cd".data)⟩] }

/-! Character-level lemmas. -/

theorem allowedChar_replaceChar (c : Char) : allowedChar (replaceChar c) = true := by
  unfold replaceChar
  split
  next h => exact h
  next h => decide

theorem replaceChar_of_allowed {c : Char} (h : allowedChar c = true) : replaceChar c = c := by
  simp [replaceChar, h]

theorem isLowerAlnum_ne_dash {c : Char} (h : isLowerAlnum c = true) : ¬ c = '-' := by
  intro hc
  rw [hc] at h
  exact absurd h (by decide)

theorem allowedChar_of_alnum {c : Char} (h : isLowerAlnum c = true) : allowedChar c = true := by
  simp [allowedChar, h]

theorem toLower_of_alnum {c : Char} (h : isLowerAlnum c = true) : Char.toLower c = c := by
  simp only [isLowerAlnum, isLowerAlpha, isDigitChar, Bool.or_eq_true, Bool.and_eq_true,
    decide_eq_true_eq] at h
  simp only [Char.toLower]
  rw [if_neg (by omega)]

theorem alnum_of_allowed_not_dash {c : Char} (h : allowedChar c = true) (hd : ¬ c = '-') :
    isLowerAlnum c = true := by
  simp only [allowedChar, Bool.or_eq_true, decide_eq_true_eq] at h
  tauto

/-! Lemmas about the hyphen-run collapse pass. -/

theorem collapseAux_dash_true (rest : List Char) :
    collapseAux true ('-' :: rest) = collapseAux true rest := by
  simp [collapseAux]

theorem collapseAux_dash_false (rest : List Char) :
    collapseAux false ('-' :: rest) = '-' :: collapseAux true rest := by
  simp [collapseAux]

theorem collapseAux_cons {d : Char} (hd : ¬ d = '-') (b : Bool) (rest : List Char) :
    collapseAux b (d :: rest) = d :: collapseAux false rest := by
  simp [collapseAux, hd]

theorem mem_of_mem_collapseAux {c : Char} :
    ∀ (b : Bool) (s : List Char), c ∈ collapseAux b s → c ∈ s := by
  intro b s
  induction s generalizing b with
  | nil => intro h; simp [collapseAux] at h
  | cons d rest ih =>
    intro h
    by_cases hd : d = '-'
    · subst hd
      cases b with
      | true =>
        rw [collapseAux_dash_true] at h
        exact List.mem_cons_of_mem _ (ih true h)
      | false =>
        rw [collapseAux_dash_false] at h
        rcases List.mem_cons.mp h with h | h
        · exact h ▸ List.mem_cons_self _ _
        · exact List.mem_cons_of_mem _ (ih true h)
    · rw [collapseAux_cons hd] at h
      rcases List.mem_cons.mp h with h | h
      · exact h ▸ List.mem_cons_self _ _
      · exact List.mem_cons_of_mem _ (ih false h)

theorem mem_collapseAux_of_mem {c : Char} (hc : ¬ c = '-') :
    ∀ (b : Bool) (s : List Char), c ∈ s → c ∈ collapseAux b s := by
  intro b s
  induction s generalizing b with
  | nil => intro h; exact absurd h (List.not_mem_nil c)
  | cons d rest ih =>
    intro h
    rcases List.mem_cons.mp h with hcd | hmem
    · subst hcd
      rw [collapseAux_cons hc]
      exact List.mem_cons_self _ _
    · by_cases hd : d = '-'
      · subst hd
        cases b with
        | true => rw [collapseAux_dash_true]; exact ih true hmem
        | false =>
          rw [collapseAux_dash_false]
          exact List.mem_cons_of_mem _ (ih true hmem)
      · rw [collapseAux_cons hd]
        exact List.mem_cons_of_mem _ (ih false hmem)

theorem collapseAux_spec :
    ∀ (b : Bool) (s : List Char), noDoubleDash (collapseAux b s) = true ∧
      (b = true → headIsDash (collapseAux b s) = false) := by
  intro b s
  induction s generalizing b with
  | nil => exact ⟨rfl, fun _ => rfl⟩
  | cons d rest ih =>
    by_cases hd : d = '-'
    · subst hd
      cases b with
      | true =>
        rw [collapseAux_dash_true]
        exact ih true
      | false =>
        rw [collapseAux_dash_false]
        refine ⟨?_, fun h => absurd h (by decide)⟩
        rcases ih true with ⟨hn, hh⟩
        cases hcol : collapseAux true rest with
        | nil => rfl
        | cons e t =>
          rw [hcol] at hn hh
          have he : ¬ e = '-' := by
            have h' := hh rfl
            simpa [headIsDash, decide_eq_true_eq] using h'
          simp [noDoubleDash, hn, he]
    · rw [collapseAux_cons hd]
      rcases ih false with ⟨hn, _⟩
      constructor
      · cases hcol : collapseAux false rest with
        | nil => rfl
        | cons e t =>
          rw [hcol] at hn
          simp [noDoubleDash, hn, hd]
      · intro _
        simp [headIsDash, hd]

/-! Lemmas about the edge-hyphen strip pass. -/

theorem noDoubleDash_tail {c : Char} {rest : List Char}
    (h : noDoubleDash (c :: rest) = true) : noDoubleDash rest = true := by
  cases rest with
  | nil => rfl
  | cons d t =>
    simp only [noDoubleDash, Bool.and_eq_true] at h
    exact h.2

theorem lastIsDash_cons (c : Char) {t : List Char} (ht : t ≠ []) :
    lastIsDash (c :: t) = lastIsDash t := by
  cases t with
  | nil => exact absurd rfl ht
  | cons d t2 => rfl

theorem mem_of_mem_dropLeadDash {c : Char} {s : List Char}
    (h : c ∈ dropLeadDash s) : c ∈ s := by
  unfold dropLeadDash at h
  split at h
  · exact List.mem_of_mem_tail h
  · exact h

theorem mem_dropLeadDash_of_mem {c : Char} (hc : ¬ c = '-') {s : List Char}
    (h : c ∈ s) : c ∈ dropLeadDash s := by
  unfold dropLeadDash
  split
  next hh =>
    cases s with
    | nil => exact absurd h (List.not_mem_nil c)
    | cons d t =>
      have hd : d = '-' := by simpa [headIsDash, decide_eq_true_eq] using hh
      rcases List.mem_cons.mp h with hcd | hmem
      · exact absurd (hcd.trans hd) hc
      · exact hmem
  next => exact h

theorem noDoubleDash_dropLeadDash {s : List Char}
    (h : noDoubleDash s = true) : noDoubleDash (dropLeadDash s) = true := by
  unfold dropLeadDash
  split
  · cases s with
    | nil => rfl
    | cons d t => exact noDoubleDash_tail h
  · exact h

theorem headIsDash_dropLeadDash {s : List Char}
    (h : noDoubleDash s = true) : headIsDash (dropLeadDash s) = false := by
  unfold dropLeadDash
  split
  next hh =>
    cases s with
    | nil => rfl
    | cons d t =>
      have hd : d = '-' := by simpa [headIsDash, decide_eq_true_eq] using hh
      subst hd
      cases t with
      | nil => rfl
      | cons e t2 =>
        simp only [noDoubleDash, Bool.and_eq_true] at h
        have he : ¬ e = '-' := by
          rcases h with ⟨h1, _⟩
          intro he
          rw [he] at h1
          exact absurd h1 (by decide)
        simpa [headIsDash, List.tail] using he
  next hh =>
    cases s with
    | nil => rfl
    | cons d t => simpa [headIsDash] using hh

theorem lastIsDash_dropLeadDash {s : List Char}
    (h : lastIsDash s = false) : lastIsDash (dropLeadDash s) = false := by
  unfold dropLeadDash
  split
  · cases s with
    | nil => rfl
    | cons d t =>
      cases t with
      | nil => rfl
      | cons e t2 =>
        rw [lastIsDash_cons d (by simp)] at h
        exact h
  · exact h

theorem dropTrailDash_cons_eq_nil {d : Char} {rest : List Char}
    (h : dropTrailDash (d :: rest) = []) : d = '-' ∧ rest = [] := by
  cases rest with
  | nil =>
    by_cases hd : d = '-'
    · exact ⟨hd, rfl⟩
    · simp [dropTrailDash, hd] at h
  | cons e t => simp [dropTrailDash] at h

theorem dropTrailDash_cons_structure (d : Char) (rest : List Char) :
    dropTrailDash (d :: rest) = [] ∨ ∃ t, dropTrailDash (d :: rest) = d :: t := by
  cases rest with
  | nil =>
    by_cases hd : d = '-'
    · left; simp [dropTrailDash, hd]
    · right; exact ⟨[], by simp [dropTrailDash, hd]⟩
  | cons e t => right; exact ⟨dropTrailDash (e :: t), rfl⟩

theorem mem_of_mem_dropTrailDash {c : Char} :
    ∀ {s : List Char}, c ∈ dropTrailDash s → c ∈ s := by
  intro s
  induction s with
  | nil => intro h; exact absurd h (List.not_mem_nil c)
  | cons d rest ih =>
    intro h
    cases rest with
    | nil =>
      by_cases hd : d = '-'
      · simp [dropTrailDash, hd] at h
      · simpa [dropTrailDash, hd] using h
    | cons e t =>
      rcases List.mem_cons.mp h with hcd | hmem
      · exact hcd ▸ List.mem_cons_self _ _
      · exact List.mem_cons_of_mem _ (ih hmem)

theorem mem_dropTrailDash_of_mem {c : Char} (hc : ¬ c = '-') :
    ∀ {s : List Char}, c ∈ s → c ∈ dropTrailDash s := by
  intro s
  induction s with
  | nil => intro h; exact absurd h (List.not_mem_nil c)
  | cons d rest ih =>
    intro h
    cases rest with
    | nil =>
      have hcd : c = d := by simpa using h
      subst hcd
      simp [dropTrailDash, hc]
    | cons e t =>
      rcases List.mem_cons.mp h with hcd | hmem
      · exact hcd ▸ List.mem_cons_self _ _
      · exact List.mem_cons_of_mem _ (ih hmem)

theorem noDoubleDash_dropTrailDash :
    ∀ {s : List Char}, noDoubleDash s = true → noDoubleDash (dropTrailDash s) = true := by
  intro s
  induction s with
  | nil => intro _; rfl
  | cons d rest ih =>
    intro h
    cases rest with
    | nil =>
      by_cases hd : d = '-'
      · simp [dropTrailDash, hd, noDoubleDash]
      · simp [dropTrailDash, hd, noDoubleDash]
    | cons e t =>
      have hrest : noDoubleDash (dropTrailDash (e :: t)) = true :=
        ih (noDoubleDash_tail h)
      show noDoubleDash (d :: dropTrailDash (e :: t)) = true
      rcases dropTrailDash_cons_structure e t with hnil | ⟨t2, ht2⟩
      · rw [hnil]; rfl
      · rw [ht2] at hrest ⊢
        simp only [noDoubleDash, Bool.and_eq_true] at h ⊢
        exact ⟨by simpa using h.1, hrest⟩

theorem headIsDash_dropTrailDash {s : List Char}
    (h : headIsDash s = false) : headIsDash (dropTrailDash s) = false := by
  cases s with
  | nil => rfl
  | cons d rest =>
    rcases dropTrailDash_cons_structure d rest with hnil | ⟨t, ht⟩
    · rw [hnil]; rfl
    · rw [ht]
      simpa [headIsDash] using h

theorem lastIsDash_dropTrailDash :
    ∀ {s : List Char}, noDoubleDash s = true → lastIsDash (dropTrailDash s) = false := by
  intro s
  induction s with
  | nil => intro _; rfl
  | cons d rest ih =>
    intro h
    cases rest with
    | nil =>
      by_cases hd : d = '-'
      · simp [dropTrailDash, hd, lastIsDash]
      · simp [dropTrailDash, hd, lastIsDash]
    | cons e t =>
      have hrest : lastIsDash (dropTrailDash (e :: t)) = false := ih (noDoubleDash_tail h)
      show lastIsDash (d :: dropTrailDash (e :: t)) = false
      rcases Decidable.em (dropTrailDash (e :: t) = []) with hnil | hne
      · rcases dropTrailDash_cons_eq_nil hnil with ⟨he, ht⟩
        subst he; subst ht
        simp only [noDoubleDash, Bool.and_eq_true, Bool.not_eq_true'] at h
        rcases h with ⟨h1, _⟩
        have hd : ¬ d = '-' := by
          intro hd
          rw [hd] at h1
          exact absurd h1 (by decide)
        rw [hnil]
        simpa [lastIsDash, decide_eq_false_iff_not] using hd
      · rw [lastIsDash_cons d hne]
        exact hrest

/-! Lemmas about the token acceptor. -/

theorem tokenRun_cons_alnum {c : Char} (hc : isLowerAlnum c = true) (b : Bool)
    (rest : List Char) : tokenRun b (c :: rest) = tokenRun false rest := by
  simp [tokenRun, hc]

theorem tokenRun_cons_dash (b : Bool) (rest : List Char) :
    tokenRun b ('-' :: rest) = (!b && tokenRun true rest) := by
  have h1 : isLowerAlnum '-' = false := by decide
  simp [tokenRun, h1]

theorem tokenRun_true_eq_false {c : Char} (hc : ¬ c = '-') (rest : List Char) :
    tokenRun true (c :: rest) = tokenRun false (c :: rest) := by
  by_cases ha : isLowerAlnum c = true
  · rw [tokenRun_cons_alnum ha, tokenRun_cons_alnum ha]
  · have ha' : isLowerAlnum c = false := by simpa using ha
    simp [tokenRun, ha', hc]

theorem tokenRun_false_of :
    ∀ {s : List Char}, (∀ c ∈ s, allowedChar c = true) → noDoubleDash s = true →
      lastIsDash s = false → tokenRun false s = true := by
  intro s
  induction s with
  | nil => intro _ _ _; rfl
  | cons c rest ih =>
    intro hall hnd hld
    by_cases hc : c = '-'
    · subst hc
      rw [tokenRun_cons_dash]
      cases rest with
      | nil => exact absurd hld (by decide)
      | cons e t =>
        have he : ¬ e = '-' := by
          intro he
          subst he
          simp [noDoubleDash] at hnd
        have hrest : tokenRun false (e :: t) = true := by
          apply ih
          · intro x hx; exact hall x (List.mem_cons_of_mem _ hx)
          · exact noDoubleDash_tail hnd
          · rw [← lastIsDash_cons '-' (by simp)]; exact hld
        simp only [Bool.not_false, Bool.true_and]
        rw [tokenRun_true_eq_false he]
        exact hrest
    · have ha : isLowerAlnum c = true :=
        alnum_of_allowed_not_dash (hall c (List.mem_cons_self _ _)) hc
      rw [tokenRun_cons_alnum ha]
      apply ih
      · intro x hx; exact hall x (List.mem_cons_of_mem _ hx)
      · exact noDoubleDash_tail hnd
      · cases rest with
        | nil => rfl
        | cons e t => rw [← lastIsDash_cons c (by simp)]; exact hld

theorem matchesToken_of {s : List Char} (hne : s ≠ [])
    (hall : ∀ c ∈ s, allowedChar c = true) (hnd : noDoubleDash s = true)
    (hh : headIsDash s = false) (hl : lastIsDash s = false) :
    matchesToken s = true := by
  cases s with
  | nil => exact absurd rfl hne
  | cons c rest =>
    have hc : ¬ c = '-' := by
      simpa [headIsDash, decide_eq_false_iff_not] using hh
    unfold matchesToken
    rw [tokenRun_true_eq_false hc]
    exact tokenRun_false_of hall hnd hl

theorem matchesToken_head {c : Char} {rest : List Char}
    (h : matchesToken (c :: rest) = true) : isLowerAlnum c = true := by
  by_cases ha : isLowerAlnum c = true
  · exact ha
  · exfalso
    unfold matchesToken at h
    have ha' : isLowerAlnum c = false := by simpa using ha
    by_cases hc : c = '-'
    · subst hc
      rw [tokenRun_cons_dash] at h
      simp at h
    · simp [tokenRun, ha', hc] at h

theorem head_alnum_of_matchesToken {s : List Char} (h : matchesToken s = true) :
    ∃ c t, s = c :: t ∧ isLowerAlnum c = true := by
  cases s with
  | nil => exact absurd h (by decide)
  | cons c t => exact ⟨c, t, rfl, matchesToken_head h⟩

theorem allowedChar_of_tokenRun :
    ∀ {s : List Char} {b : Bool}, tokenRun b s = true → ∀ c ∈ s, allowedChar c = true := by
  intro s
  induction s with
  | nil => intro b _ c hc; exact absurd hc (List.not_mem_nil c)
  | cons d rest ih =>
    intro b h c hc
    by_cases ha : isLowerAlnum d = true
    · rw [tokenRun_cons_alnum ha] at h
      rcases List.mem_cons.mp hc with hcd | hmem
      · exact hcd ▸ allowedChar_of_alnum ha
      · exact ih h c hmem
    · by_cases hd : d = '-'
      · subst hd
        rw [tokenRun_cons_dash] at h
        rcases List.mem_cons.mp hc with hcd | hmem
        · subst hcd; decide
        · have h2 : tokenRun true rest = true := by
            cases b with
            | true => simp at h
            | false => simpa using h
          exact ih h2 c hmem
      · have ha' : isLowerAlnum d = false := by simpa using ha
        simp [tokenRun, ha', hd] at h

theorem allowedChar_of_matchesToken {s : List Char} (h : matchesToken s = true) :
    ∀ c ∈ s, allowedChar c = true := allowedChar_of_tokenRun h

/-! Lemmas about `sanitize`. -/

theorem sanitize_spec (s : List Char) :
    (∀ c ∈ sanitize s, allowedChar c = true) ∧ noDoubleDash (sanitize s) = true ∧
      headIsDash (sanitize s) = false ∧ lastIsDash (sanitize s) = false := by
  unfold sanitize
  have hall0 : ∀ c ∈ (s.map Char.toLower).map replaceChar, allowedChar c = true := by
    intro c hc
    rcases List.mem_map.mp hc with ⟨d, _, hd⟩
    exact hd ▸ allowedChar_replaceChar d
  have hnd1 : noDoubleDash (collapseAux false ((s.map Char.toLower).map replaceChar)) = true :=
    (collapseAux_spec false _).1
  have hall1 : ∀ c ∈ collapseAux false ((s.map Char.toLower).map replaceChar),
      allowedChar c = true :=
    fun c hc => hall0 c (mem_of_mem_collapseAux false _ hc)
  have hnd2 : noDoubleDash (dropLeadDash (collapseAux false
      ((s.map Char.toLower).map replaceChar))) = true := noDoubleDash_dropLeadDash hnd1
  have hh2 : headIsDash (dropLeadDash (collapseAux false
      ((s.map Char.toLower).map replaceChar))) = false := headIsDash_dropLeadDash hnd1
  have hall2 : ∀ c ∈ dropLeadDash (collapseAux false ((s.map Char.toLower).map replaceChar)),
      allowedChar c = true :=
    fun c hc => hall1 c (mem_of_mem_dropLeadDash hc)
  exact ⟨fun c hc => hall2 c (mem_of_mem_dropTrailDash hc), noDoubleDash_dropTrailDash hnd2,
    headIsDash_dropTrailDash hh2, lastIsDash_dropTrailDash hnd2⟩

theorem matchesToken_sanitize (s : List Char) :
    sanitize s = [] ∨ matchesToken (sanitize s) = true := by
  rcases Decidable.em (sanitize s = []) with h | h
  · exact Or.inl h
  · rcases sanitize_spec s with ⟨h1, h2, h3, h4⟩
    exact Or.inr (matchesToken_of h h1 h2 h3 h4)

theorem mem_sanitize_of_alnum {c : Char} (hc : isLowerAlnum c = true)
    {s : List Char} (h : c ∈ s) : c ∈ sanitize s := by
  unfold sanitize
  have h1 : c ∈ s.map Char.toLower := by
    have h1' := List.mem_map_of_mem Char.toLower h
    rwa [toLower_of_alnum hc] at h1'
  have h0 : c ∈ (s.map Char.toLower).map replaceChar := by
    have h0' := List.mem_map_of_mem replaceChar h1
    rwa [replaceChar_of_allowed (allowedChar_of_alnum hc)] at h0'
  have hcd : ¬ c = '-' := isLowerAlnum_ne_dash hc
  exact mem_dropTrailDash_of_mem hcd
    (mem_dropLeadDash_of_mem hcd (mem_collapseAux_of_mem hcd false _ h0))

theorem sanitize_ne_nil {c : Char} (hc : isLowerAlnum c = true) {s : List Char}
    (h : c ∈ s) : sanitize s ≠ [] := by
  intro hnil
  have hmem := mem_sanitize_of_alnum hc h
  rw [hnil] at hmem
  exact absurd hmem (List.not_mem_nil c)

theorem matchesToken_resourceNamePfx (input : List Char) :
    matchesToken (resourceNamePfx input) = true := by
  unfold resourceNamePfx jsOr
  split
  · decide
  next h =>
    rcases matchesToken_sanitize (("dify-".data) ++ environmentName input) with h2 | h2
    · exact absurd h2 h
    · exact h2

theorem resourceNamePfx_head (input : List Char) :
    ∃ c t, resourceNamePfx input = c :: t ∧ isLowerAlnum c = true :=
  head_alnum_of_matchesToken (matchesToken_resourceNamePfx input)

theorem mem_joinDash_left {c : Char} {x : List Char} (h : c ∈ x) :
    ∀ xs, c ∈ joinDash (x :: xs) := by
  intro xs
  cases xs with
  | nil => simpa [joinDash] using h
  | cons y ys => exact List.mem_append_left _ h

/-! Lemmas about the trailing-hyphen-run strip pass. -/

theorem stripTrailDashes_cons (c : Char) (rest : List Char) :
    stripTrailDashes (c :: rest) =
      match stripTrailDashes rest with
      | [] => if c = '-' then [] else [c]
      | t => c :: t := rfl

theorem stripTrailDashes_cons_ne_nil {c : Char} (hc : ¬ c = '-') (rest : List Char) :
    stripTrailDashes (c :: rest) ≠ [] := by
  rw [stripTrailDashes_cons]
  cases h : stripTrailDashes rest with
  | nil => simp [hc]
  | cons e t => simp

theorem stripTrailDashes_cons_structure (c : Char) (rest : List Char) :
    stripTrailDashes (c :: rest) = [] ∨ ∃ t, stripTrailDashes (c :: rest) = c :: t := by
  rw [stripTrailDashes_cons]
  cases h : stripTrailDashes rest with
  | nil =>
    by_cases hc : c = '-'
    · left; simp [hc]
    · right; exact ⟨[], by simp [hc]⟩
  | cons e t => right; exact ⟨e :: t, rfl⟩

theorem length_stripTrailDashes_le :
    ∀ (s : List Char), (stripTrailDashes s).length ≤ s.length := by
  intro s
  induction s with
  | nil => simp [stripTrailDashes]
  | cons c rest ih =>
    rw [stripTrailDashes_cons]
    cases h : stripTrailDashes rest with
    | nil =>
      by_cases hc : c = '-'
      · simp [hc]
      · simp [hc]
    | cons e t =>
      rw [h] at ih
      simp only [List.length_cons] at ih ⊢
      omega

theorem mem_of_mem_stripTrailDashes {c : Char} :
    ∀ {s : List Char}, c ∈ stripTrailDashes s → c ∈ s := by
  intro s
  induction s with
  | nil => intro h; simp [stripTrailDashes] at h
  | cons d rest ih =>
    intro h
    rw [stripTrailDashes_cons] at h
    revert h
    cases hr : stripTrailDashes rest with
    | nil =>
      intro h
      by_cases hd : d = '-'
      · simp [hd] at h
      · simp only [if_neg hd, List.mem_singleton] at h
        exact h ▸ List.mem_cons_self _ _
    | cons e t =>
      intro h
      rcases List.mem_cons.mp h with hcd | hmem
      · exact hcd ▸ List.mem_cons_self _ _
      · exact List.mem_cons_of_mem _ (ih (hr ▸ hmem))

theorem lastIsDash_stripTrailDashes :
    ∀ (s : List Char), lastIsDash (stripTrailDashes s) = false := by
  intro s
  induction s with
  | nil => rfl
  | cons c rest ih =>
    rw [stripTrailDashes_cons]
    cases h : stripTrailDashes rest with
    | nil =>
      by_cases hc : c = '-'
      · simp [hc, lastIsDash]
      · simp [hc, lastIsDash]
    | cons e t =>
      rw [h] at ih
      rw [lastIsDash_cons c (by simp)]
      exact ih

/-- The truncate-then-strip pattern used by `buildName` and the Redis names:
starting from a string whose head is not a hyphen and any positive length
ceiling, the result is non-empty, within the ceiling, and has no trailing
hyphen. -/
theorem takeStrip_spec {c : Char} (hc : ¬ c = '-') (t : List Char) {n : Nat} (hn : 1 ≤ n) :
    stripTrailDashes ((c :: t).take n) ≠ [] ∧
    (stripTrailDashes ((c :: t).take n)).length ≤ n ∧
    lastIsDash (stripTrailDashes ((c :: t).take n)) = false := by
  obtain ⟨m, rfl⟩ : ∃ m, n = m + 1 := ⟨n - 1, by omega⟩
  rw [List.take_succ_cons]
  refine ⟨stripTrailDashes_cons_ne_nil hc _, ?_, lastIsDash_stripTrailDashes _⟩
  have h1 : (stripTrailDashes (c :: t.take m)).length ≤ (c :: t.take m).length :=
    length_stripTrailDashes_le _
  have h2 : (t.take m).length ≤ m := by
    rw [List.length_take]
    exact Nat.min_le_left _ _
  simp only [List.length_cons] at h1
  omega

/-- Full behaviour of `buildName`: for a positive ceiling the result is the
stripped truncation of the sanitized join, which is non-empty, within the
ceiling, and free of a trailing hyphen. -/
theorem buildName_spec (input suffix : List Char) {maxLength : Nat} (h : 1 ≤ maxLength) :
    (buildName input suffix maxLength).length ≤ maxLength ∧
    buildName input suffix maxLength ≠ [] ∧
    lastIsDash (buildName input suffix maxLength) = false := by
  obtain ⟨c, t, hp, hc⟩ := resourceNamePfx_head input
  simp only [buildName]
  have hfilter : (([resourceNamePfx input, sanitize suffix]).filter
      (fun part => decide (0 < part.length)))
      = resourceNamePfx input :: (([sanitize suffix]).filter
        (fun part => decide (0 < part.length))) := by
    apply List.filter_cons_of_pos
    simp [hp]
  rw [hfilter]
  have hcmem : c ∈ resourceNamePfx input := by rw [hp]; exact List.mem_cons_self _ _
  have hjoin : c ∈ joinDash (resourceNamePfx input :: (([sanitize suffix]).filter
      (fun part => decide (0 < part.length)))) := mem_joinDash_left hcmem _
  have hcomb : matchesToken (sanitize (joinDash (resourceNamePfx input ::
      (([sanitize suffix]).filter (fun part => decide (0 < part.length)))))) = true := by
    rcases matchesToken_sanitize (joinDash (resourceNamePfx input ::
      (([sanitize suffix]).filter (fun part => decide (0 < part.length))))) with hnil | hm
    · exact absurd hnil (sanitize_ne_nil hc hjoin)
    · exact hm
  obtain ⟨c2, t2, hcomb2, hc2⟩ := head_alnum_of_matchesToken hcomb
  rw [hcomb2]
  obtain ⟨hne, hlen, hlast⟩ := takeStrip_spec (isLowerAlnum_ne_dash hc2) t2 h
  rw [show jsOr (stripTrailDashes ((c2 :: t2).take maxLength)) (c2 :: t2)
      = stripTrailDashes ((c2 :: t2).take maxLength) from if_neg hne]
  rw [show jsOr (stripTrailDashes ((c2 :: t2).take maxLength)) (resourceNamePfx input)
      = stripTrailDashes ((c2 :: t2).take maxLength) from if_neg hne]
  rw [List.take_of_length_le hlen]
  exact ⟨hlen, hne, hlast⟩

/-- `buildBucketName` unfolded through its intermediate candidate. -/
theorem buildBucketName_eq (input : List Char) (account region : Option (List Char))
    (suffix : List Char) :
    buildBucketName input account region suffix =
      if (bucketCandidate input account region suffix).length < 3
      then (padEndZero3 (resourceNamePfx input)).take 63
      else bucketCandidate input account region suffix := rfl

theorem allowedChar_resourceNamePfx (input : List Char) :
    ∀ c ∈ resourceNamePfx input, allowedChar c = true :=
  allowedChar_of_matchesToken (matchesToken_resourceNamePfx input)

theorem allowedChar_padFallback {c : Char} (input : List Char)
    (h : c ∈ (padEndZero3 (resourceNamePfx input)).take 63) : allowedChar c = true := by
  have h1 : c ∈ padEndZero3 (resourceNamePfx input) := List.take_subset _ _ h
  unfold padEndZero3 at h1
  rcases List.mem_append.mp h1 with h2 | h2
  · exact allowedChar_resourceNamePfx input c h2
  · rw [List.eq_of_mem_replicate h2]
    decide

theorem length_padFallback (input : List Char) :
    3 ≤ ((padEndZero3 (resourceNamePfx input)).take 63).length ∧
    ((padEndZero3 (resourceNamePfx input)).take 63).length ≤ 63 := by
  have h1 : 3 ≤ (padEndZero3 (resourceNamePfx input)).length := by
    unfold padEndZero3
    rw [List.length_append, List.length_replicate]
    omega
  rw [List.length_take]
  omega

theorem allowedChar_bucketCandidate {c : Char} (input : List Char)
    (account region : Option (List Char)) (suffix : List Char)
    (h : c ∈ bucketCandidate input account region suffix) : allowedChar c = true := by
  unfold bucketCandidate at h
  have h1 := List.take_subset _ _ (mem_of_mem_stripTrailDashes h)
  exact (sanitize_spec _).1 c h1

theorem length_bucketCandidate_le (input : List Char) (account region : Option (List Char))
    (suffix : List Char) : (bucketCandidate input account region suffix).length ≤ 63 := by
  unfold bucketCandidate
  have h1 := length_stripTrailDashes_le ((sanitize (joinDash (([jsOr
    (bucketPfx input account region) (resourceNamePfx input), suffix]).filter
      (fun part => decide (0 < part.length))))).take 63)
  have h2 : ((sanitize (joinDash (([jsOr (bucketPfx input account region)
      (resourceNamePfx input), suffix]).filter (fun part => decide (0 < part.length))))).take
        63).length ≤ 63 := by
    rw [List.length_take]
    exact Nat.min_le_left _ _
  omega

/-- Full behaviour of `buildBucketName`: the result is within the object
storage bounds and character class for every input. -/
theorem buildBucketName_spec (input : List Char) (account region : Option (List Char))
    (suffix : List Char) :
    3 ≤ (buildBucketName input account region suffix).length ∧
    (buildBucketName input account region suffix).length ≤ 63 ∧
    (∀ c ∈ buildBucketName input account region suffix, allowedChar c = true) := by
  rw [buildBucketName_eq]
  by_cases hlt : (bucketCandidate input account region suffix).length < 3
  · rw [if_pos hlt]
    obtain ⟨h1, h2⟩ := length_padFallback input
    exact ⟨h1, h2, fun c hc => allowedChar_padFallback input hc⟩
  · rw [if_neg hlt]
    refine ⟨by omega, length_bucketCandidate_le input account region suffix,
      fun c hc => allowedChar_bucketCandidate input account region suffix hc⟩

/-! Lemmas about the validation pass. -/

theorem head?_vpcConflictMsg (v : List Char) : (vpcConflictMsg v).head? = some 'W' := rfl

theorem head?_secretNameMsg (l : List (List Char)) : (secretNameMsg l).head? = some 's' := rfl

theorem validate_not_vpcMsg {p : StackProps} (h : vpcCond p = false) (v : List Char) :
    ¬ validate p = Except.error (vpcConflictMsg v) := by
  intro hcontra
  unfold validate at hcontra
  split at hcontra
  next hc => rw [h] at hc; exact absurd hc (by decide)
  next =>
    split at hcontra
    next =>
      have heq : cfAlbMsg = vpcConflictMsg v := by simpa using hcontra
      have h3 := congrArg List.head? heq
      rw [head?_vpcConflictMsg] at h3
      exact absurd h3 (by decide)
    next =>
      split at hcontra
      next =>
        have heq : subDomainMsg = vpcConflictMsg v := by simpa using hcontra
        have h3 := congrArg List.head? heq
        rw [head?_vpcConflictMsg] at h3
        exact absurd h3 (by decide)
      next =>
        split at hcontra
        next =>
          have heq : emailMsg = vpcConflictMsg v := by simpa using hcontra
          have h3 := congrArg List.head? heq
          rw [head?_vpcConflictMsg] at h3
          exact absurd h3 (by decide)
        next =>
          split at hcontra
          next =>
            have heq : secretNameMsg (offendingSecretNames
                p.additionalEnvironmentVariables) = vpcConflictMsg v := by
              simpa using hcontra
            have h3 := congrArg List.head? heq
            rw [head?_vpcConflictMsg, head?_secretNameMsg] at h3
            exact absurd h3 (by decide)
          next =>
            split at hcontra
            · exact absurd hcontra (by simp)
            · exact absurd hcontra (by simp)

theorem validate_not_cfAlbMsg {p : StackProps} (h : cfAlbCond p = false) :
    ¬ validate p = Except.error cfAlbMsg := by
  intro hcontra
  unfold validate at hcontra
  split at hcontra
  next =>
    have heq : vpcConflictMsg (p.vpcId.getD []) = cfAlbMsg := by simpa using hcontra
    have h3 := congrArg List.head? heq
    rw [head?_vpcConflictMsg] at h3
    exact absurd h3.symm (by decide)
  next =>
    split at hcontra
    next hc => rw [h] at hc; exact absurd hc (by decide)
    next =>
      split at hcontra
      next => exact absurd (by simpa using hcontra : subDomainMsg = cfAlbMsg) (by decide)
      next =>
        split at hcontra
        next => exact absurd (by simpa using hcontra : emailMsg = cfAlbMsg) (by decide)
        next =>
          split at hcontra
          next =>
            have heq : secretNameMsg (offendingSecretNames
                p.additionalEnvironmentVariables) = cfAlbMsg := by
              simpa using hcontra
            have h3 := congrArg List.head? heq
            rw [head?_secretNameMsg] at h3
            exact absurd h3.symm (by decide)
          next =>
            split at hcontra
            · exact absurd hcontra (by simp)
            · exact absurd hcontra (by simp)

theorem mem_joinCommaSpace {n : List Char} :
    ∀ {l : List (List Char)}, n ∈ l → ∃ a b, joinCommaSpace l = a ++ n ++ b := by
  intro l
  induction l with
  | nil => intro h; exact absurd h (List.not_mem_nil n)
  | cons x xs ih =>
    intro h
    rcases List.mem_cons.mp h with hcd | hmem
    · subst hcd
      cases xs with
      | nil => exact ⟨[], [], by simp [joinCommaSpace]⟩
      | cons y ys =>
        exact ⟨[], (", ".data) ++ joinCommaSpace (y :: ys), by simp [joinCommaSpace]⟩
    · cases xs with
      | nil => exact absurd hmem (List.not_mem_nil n)
      | cons y ys =>
        obtain ⟨a, b, hab⟩ := ih hmem
        refine ⟨x ++ (", ".data) ++ a, b, ?_⟩
        show x ++ (", ".data) ++ joinCommaSpace (y :: ys) = x ++ (", ".data) ++ a ++ n ++ b
        rw [hab]
        simp [List.append_assoc]

theorem secretNameMsg_enumerates {n : List Char} {l : List (List Char)} (h : n ∈ l) :
    ∃ a b, secretNameMsg l = a ++ n ++ b := by
  obtain ⟨a, b, hab⟩ := mem_joinCommaSpace h
  refine ⟨("secretName cannot ends with a hyphen and 6 characters! ".data) ++ a, b, ?_⟩
  unfold secretNameMsg
  rw [hab]
  simp [List.append_assoc]

/-! The claims. -/

/-- C1: for every environment-label input, every suffix (the name parts the
builder joins after the fixed prefix), and every maxLength at least 1, the
resource name produced by `buildName` has length at most maxLength, is
non-empty, and does not end with the character '-'. -/
theorem c1_buildName_bounded (env suffix : List Char) (maxLength : Nat)
    (h : 1 ≤ maxLength) :
    (buildName env suffix maxLength).length ≤ maxLength ∧
    buildName env suffix maxLength ≠ [] ∧
    lastIsDash (buildName env suffix maxLength) = false :=
  buildName_spec env suffix h

/-- C1 witness at a concrete input and ceiling. -/
theorem c1_witness :
    (buildName ("My-App!!".data) ("cluster".data) 10).length ≤ 10 ∧
    buildName ("My-App!!".data) ("cluster".data) 10 ≠ [] ∧
    lastIsDash (buildName ("My-App!!".data) ("cluster".data) 10) = false :=
  c1_buildName_bounded ("My-App!!".data) ("cluster".data) 10 (by decide)

/-- C2 (amended): for every environment label, the cluster name, ElastiCache
subnet group name and replication group id satisfy the full resource-name
invariant (length within the resource-type ceiling, non-empty, no trailing
hyphen); the ECS task family and service name are truncated to 255 and
non-empty, but no trailing-hyphen re-strip is applied to them. -/
theorem c2_resource_name_invariants (env : List Char) :
    ((clusterName env).length ≤ 255 ∧ clusterName env ≠ [] ∧
      lastIsDash (clusterName env) = false) ∧
    ((subnetGroupName (resourceNamePfx env)).length ≤ 255 ∧
      subnetGroupName (resourceNamePfx env) ≠ [] ∧
      lastIsDash (subnetGroupName (resourceNamePfx env)) = false) ∧
    ((replicationGroupId (resourceNamePfx env)).length ≤ 40 ∧
      replicationGroupId (resourceNamePfx env) ≠ [] ∧
      lastIsDash (replicationGroupId (resourceNamePfx env)) = false) ∧
    ((taskFamily (resourceNamePfx env)).length ≤ 255 ∧
      taskFamily (resourceNamePfx env) ≠ []) ∧
    ((serviceName (resourceNamePfx env)).length ≤ 255 ∧
      serviceName (resourceNamePfx env) ≠ []) := by
  obtain ⟨c, t, hp, hc⟩ := resourceNamePfx_head env
  have hcd := isLowerAlnum_ne_dash hc
  refine ⟨?_, ?_, ?_, ?_, ?_⟩
  · exact buildName_spec env ("cluster".data) (by omega)
  · unfold subnetGroupName
    rw [hp, List.cons_append]
    obtain ⟨h1, h2, h3⟩ := takeStrip_spec hcd (t ++ ("-redis-subnets".data))
      (by omega : (1:Nat) ≤ 255)
    exact ⟨h2, h1, h3⟩
  · unfold replicationGroupId
    rw [hp, List.cons_append]
    obtain ⟨h1, h2, h3⟩ := takeStrip_spec hcd (t ++ ("-redis".data))
      (by omega : (1:Nat) ≤ 40)
    exact ⟨h2, h1, h3⟩
  · unfold taskFamily
    rw [hp, List.cons_append]
    constructor
    · rw [List.length_take]; exact Nat.min_le_left _ _
    · apply List.ne_nil_of_length_pos
      rw [List.length_take, List.length_cons]
      omega
  · unfold serviceName
    rw [hp, List.cons_append]
    constructor
    · rw [List.length_take]; exact Nat.min_le_left _ _
    · apply List.ne_nil_of_length_pos
      rw [List.length_take, List.length_cons]
      omega

/-- C2 counterexample: with a 249-character environment label the resource
name prefix has 254 characters, and the ECS task family and service name,
though truncated to 255 characters, end with the dangling separator '-'. -/
theorem c2_counterexample :
    lastIsDash (taskFamily (resourceNamePfx longEnvLabel)) = true ∧
    lastIsDash (serviceName (resourceNamePfx longEnvLabel)) = true := ⟨rfl, rfl⟩

/-- C3: for every environment label, optional account and region segment, and
suffix, the bucket name length lies in the interval [3, 63] and every
character is a lowercase letter, a digit or a hyphen; when the composed,
truncated candidate has fewer than 3 characters, the result is the
resource-name prefix padded on the right with the fixed filler '0' up to
length 3, still bounded at 63. -/
theorem c3_buildBucketName_bounds (env : List Char) (account region : Option (List Char))
    (suffix : List Char) :
    3 ≤ (buildBucketName env account region suffix).length ∧
    (buildBucketName env account region suffix).length ≤ 63 ∧
    (∀ c ∈ buildBucketName env account region suffix, allowedChar c = true) ∧
    ((bucketCandidate env account region suffix).length < 3 →
      buildBucketName env account region suffix
        = (padEndZero3 (resourceNamePfx env)).take 63) := by
  obtain ⟨h1, h2, h3⟩ := buildBucketName_spec env account region suffix
  refine ⟨h1, h2, h3, fun hlt => ?_⟩
  rw [buildBucketName_eq, if_pos hlt]

/-- C4: for every string s, sanitize(s) matches the regular expression
`^[a-z0-9]+(-[a-z0-9]+)*$` or equals the empty string; sanitize("My-App!!")
equals "my-app"; and sanitize is a total function, so it raises no error for
any input. -/
theorem c4_sanitize_token (s : List Char) :
    (matchesToken (sanitize s) = true ∨ sanitize s = []) ∧
    sanitize ("My-App!!".data) = ("my-app".data) := by
  constructor
  · rcases matchesToken_sanitize s with h | h
    · exact Or.inr h
    · exact Or.inl h
  · rfl

/-- C5 (amended): validation raises the VPC-conflict error — whose message
contains the supplied VPC identifier — exactly when a truthy vpcId is
supplied and at least one of useNatInstance / vpcIsolated is set at all,
whatever its value; with an absent or empty vpcId, or both properties unset,
the error is never raised. -/
theorem c5_vpc_conflict (p : StackProps) :
    ((vpcCond p = true) ↔
      validate p = Except.error (vpcConflictMsg (p.vpcId.getD []))) ∧
    (∃ a b, vpcConflictMsg (p.vpcId.getD []) = a ++ (p.vpcId.getD []) ++ b) := by
  constructor
  · constructor
    · intro h
      unfold validate
      rw [if_pos h]
    · intro h
      by_contra hv
      have hv' : vpcCond p = false := by simpa using hv
      exact validate_not_vpcMsg hv' _ h
  · exact ⟨("When you import an existing VPC (".data),
      ("), you cannot set useNatInstance or vpcIsolated properties!".data), rfl⟩

/-- C5 counterexample: vpcId is supplied while useNatInstance is explicitly
false and vpcIsolated unset — neither NAT-instance creation nor isolated
topology is requested — yet validation raises the VPC-conflict error. -/
theorem c5_counterexample :
    c5props.useNatInstance = some false ∧ c5props.vpcIsolated = none ∧
    validate c5props = Except.error (vpcConflictMsg ("vpc-123".data)) :=
  ⟨rfl, rfl, rfl⟩

/-- C6 (amended): when the VPC check passes, validation raises the
internalAlb-conflict error exactly when CloudFront is enabled (set true or
defaulted) and the internalAlb property is set at all — even to false. -/
theorem c6_cf_internal_alb (p : StackProps) (h : vpcCond p = false) :
    cfAlbCond p = true ↔ validate p = Except.error cfAlbMsg := by
  constructor
  · intro hc
    unfold validate
    rw [if_neg (show ¬ vpcCond p = true by simp [h]), if_pos hc]
  · intro hc
    by_contra hcc
    have hcc' : cfAlbCond p = false := by simpa using hcc
    exact validate_not_cfAlbMsg hcc' hc

/-- C6 witness at a concrete conflicting configuration. -/
theorem c6_witness : validate c6props = Except.error cfAlbMsg :=
  (c6_cf_internal_alb c6props (by decide)).mp (by decide)

/-- C6 counterexample: CloudFront enabled while internalAlb is explicitly
false — the internal load balancer is not selected — yet validation raises
the conflict error. -/
theorem c6_counterexample :
    c6propsFalse.internalAlb = some false ∧
    validate c6propsFalse = Except.error cfAlbMsg := ⟨rfl, rfl⟩

/-- C7 (amended): when the first four checks pass, validation raises the
secret-name error exactly when some additional secret-reference identifier
ends in a hyphen followed by exactly six characters none of which is a line
terminator (the anchored regex with six dot metacharacters), and the raised
message enumerates every offending identifier. -/
theorem c7_secret_suffix (p : StackProps)
    (h1 : vpcCond p = false) (h2 : cfAlbCond p = false)
    (h3 : subDomainCond p = false) (h4 : emailCond p = false) :
    ((offendingSecretNames p.additionalEnvironmentVariables ≠ []) ↔
      validate p = Except.error (secretNameMsg
        (offendingSecretNames p.additionalEnvironmentVariables))) ∧
    (∀ n ∈ offendingSecretNames p.additionalEnvironmentVariables,
      ∃ a b, secretNameMsg (offendingSecretNames p.additionalEnvironmentVariables)
        = a ++ n ++ b) := by
  constructor
  · constructor
    · intro h5
      unfold validate
      rw [if_neg (show ¬ vpcCond p = true by simp [h1]),
        if_neg (show ¬ cfAlbCond p = true by simp [h2]),
        if_neg (show ¬ subDomainCond p = true by simp [h3]),
        if_neg (show ¬ emailCond p = true by simp [h4])]
      have h6 : (offendingSecretNames p.additionalEnvironmentVariables).isEmpty = false := by
        cases hl : offendingSecretNames p.additionalEnvironmentVariables with
        | nil => exact absurd hl h5
        | cons a l => rfl
      rw [if_pos (show (!(offendingSecretNames
        p.additionalEnvironmentVariables).isEmpty) = true by rw [h6]; rfl)]
    · intro h5
      by_contra hne
      have h0 : offendingSecretNames p.additionalEnvironmentVariables = [] := hne
      have h6 : (offendingSecretNames p.additionalEnvironmentVariables).isEmpty = true := by
        rw [h0]; rfl
      unfold validate at h5
      rw [if_neg (show ¬ vpcCond p = true by simp [h1]),
        if_neg (show ¬ cfAlbCond p = true by simp [h2]),
        if_neg (show ¬ subDomainCond p = true by simp [h3]),
        if_neg (show ¬ emailCond p = true by simp [h4]),
        if_neg (show ¬ (!(offendingSecretNames
          p.additionalEnvironmentVariables).isEmpty) = true by rw [h6]; simp)] at h5
      split at h5
      · exact absurd h5 (by simp)
      · exact absurd h5 (by simp)
  · intro n hn
    exact secretNameMsg_enumerates hn

/-- C7 witness at a concrete offending configuration. -/
theorem c7_witness :
    validate c7propsPlain = Except.error (secretNameMsg
      (offendingSecretNames c7propsPlain.additionalEnvironmentVariables)) :=
  ((c7_secret_suffix c7propsPlain (by decide) (by decide) (by decide) (by decide)).1).mp
    (by decide)

/-- C7 counterexample: the secret name x-ab + newline + cde ends in a hyphen
followed by exactly six characters, yet validation raises no error, because
the regex dot metacharacter does not match the newline among those six. -/
theorem c7_counterexample :
    endsInHyphenSix ("x-ab\ncde".data) = true ∧
    validate c7props = Except.ok [] := ⟨rfl, rfl⟩

/-- C8: with useCloudFront explicitly false, no domainName, and internalAlb
explicitly false, validation raises no error and produces exactly the one
unencrypted-traffic advisory warning. -/
theorem c8_warning_only : validate c8props = Except.ok [albWarnMsg] := rfl

/-- C9 (amended): validation is fail-fast in source order, not independent:
with the first two checks passing and the sub-domain rule violated, the
sub-domain error alone is raised, whether or not later rules (such as the
secret-name rule) are also violated. -/
theorem c9_first_violation_wins (p : StackProps)
    (h1 : vpcCond p = false) (h2 : cfAlbCond p = false)
    (h3 : subDomainCond p = true) :
    validate p = Except.error subDomainMsg := by
  unfold validate
  rw [if_neg (show ¬ vpcCond p = true by simp [h1]),
    if_neg (show ¬ cfAlbCond p = true by simp [h2]), if_pos h3]

/-- C9 witness: the doubly violating configuration raises the sub-domain
error. -/
theorem c9_witness : validate c9props = Except.error subDomainMsg :=
  c9_first_violation_wins c9props (by decide) (by decide) (by decide)

/-- C9 counterexample: a configuration violating both the sub-domain rule and
the secret-name rule produces only the sub-domain error; the secret-name
violation is never reported. -/
theorem c9_counterexample :
    subDomainCond c9props = true ∧
    offendingSecretNames c9props.additionalEnvironmentVariables ≠ [] ∧
    validate c9props = Except.error subDomainMsg ∧
    ¬ subDomainMsg = secretNameMsg (offendingSecretNames
      c9props.additionalEnvironmentVariables) :=
  ⟨rfl, by decide, rfl, by decide⟩

/-- C10: with useCloudFront omitted entirely (CloudFront wired in by
default), no domainName, and the internal load balancer not selected, the
advisory warning is still emitted, because the warning condition tests the
raw supplied property rather than the defaulted value. -/
theorem c10_default_cloudfront_warning :
    ({} : StackProps).useCloudFront = none ∧ ({} : StackProps).internalAlb = none ∧
    validate {} = Except.ok [albWarnMsg] := ⟨rfl, rfl, rfl⟩

end DifyOnAws
